import Mathlib

/-!
# Verification of the Amazon listing blacklist checker (`src/app.py`)

Shallow embedding of the core scan/annotate logic (`check_text`, lines
24-83 of `app.py`) and of the report/summary code (lines 125-133).

Texts are modelled as `List Char`.  Python's `re` module is modelled for
the only patterns the program builds: a literal term (every special
character escaped by `re.escape`) optionally fenced by `\b` word
boundaries, matched with `re.IGNORECASE`.  Case folding and the `\w`
word-character class are modelled over ASCII (the rule terms and marker
syntax in this repository are ASCII).
-/

/-- ASCII word character: regex `\w`, deciding the `\b` boundaries. -/
def isWordChar (c : Char) : Bool :=
  c.isAlphanum || c = '_'

/-- Case folding used by `re.IGNORECASE` (ASCII). -/
def foldCase (c : Char) : Char := c.toLower

/-- Case-insensitive character equality. -/
def ciEq (a b : Char) : Bool := foldCase a = foldCase b

/-- `ciStartsWith pat s` : `s` starts with `pat`, case-insensitively. -/
def ciStartsWith : List Char → List Char → Bool
  | [], _ => true
  | _ :: _, [] => false
  | a :: as, b :: bs => ciEq a b && ciStartsWith as bs

/-- The literal (escaped) term matches `text` at offset `i`,
case-insensitively. -/
def litMatchAt (term text : List Char) (i : Nat) : Bool :=
  decide (i ≤ text.length) && ciStartsWith term (text.drop i)

/-- Is the character at offset `i` a word character (false past the end)? -/
def wordAt (text : List Char) (i : Nat) : Bool :=
  match text.drop i with
  | [] => false
  | c :: _ => isWordChar c

/-- Regex `\b` holds at offset `i`: the word-character status changes
between `i - 1` and `i` (positions outside the text are non-word). -/
def boundaryAt (text : List Char) (i : Nat) : Bool :=
  (if i = 0 then false else wordAt text (i - 1)) != wordAt text i

/-- A compiled pattern as built by `check_text`: the literal term
(`re.escape(term)`), with surrounding `\b` boundaries iff the match
type was `'exact'` (line 44-48 of `app.py`). -/
structure Pattern where
  term : List Char
  exact : Bool
deriving DecidableEq, Repr

/-- Does the pattern match at offset `i`?  Returns the end offset.
`\b term \b` requires word boundaries at both ends of the literal. -/
def matchAt (p : Pattern) (text : List Char) (i : Nat) : Option Nat :=
  if litMatchAt p.term text i &&
      (!p.exact || (boundaryAt text i && boundaryAt text (i + p.term.length)))
  then some (i + p.term.length)
  else none

/-- `re.finditer` scan from offset `i`: leftmost match first, each match
consumes its range before the next search; an empty match advances the
scan position by one.  `fuel` only bounds the recursion. -/
def scanFrom (p : Pattern) (text : List Char) : Nat → Nat → List (Nat × Nat)
  | _, 0 => []
  | i, fuel + 1 =>
    if text.length < i then []
    else
      match matchAt p text i with
      | some e => (i, e) :: scanFrom p text (max e (i + 1)) fuel
      | none => scanFrom p text (i + 1) fuel

/-- All non-overlapping matches of `p` in `text`, left to right
(`list(re.finditer(pattern, text, re.IGNORECASE))`, line 51). -/
def findMatches (p : Pattern) (text : List Char) : List (Nat × Nat) :=
  scanFrom p text 0 (text.length + 2)

/-- `len(matches)` : the occurrence count recorded for a term. -/
def countMatches (p : Pattern) (text : List Char) : Nat :=
  (findMatches p text).length

/-- Highlight style for `CRITICAL` risk (line 69 of `app.py`). -/
def styleCritical : String :=
  "background-color: #ff4b4b; color: white; padding: 2px 4px; border-radius: 4px;"

/-- Highlight style for `HIGH` risk (line 71). -/
def styleHigh : String :=
  "background-color: #ffa500; color: white; padding: 2px 4px; border-radius: 4px;"

/-- Highlight style for every other risk level (line 73). -/
def styleOther : String :=
  "background-color: #ffd700; color: black; padding: 2px 4px; border-radius: 4px;"

/-- The style chosen for a risk level (lines 68-73). -/
def styleFor (risk : String) : String :=
  if risk == "CRITICAL" then styleCritical
  else if risk == "HIGH" then styleHigh
  else styleOther

/-- The replacement produced for one match (line 78):
`<span style="{style}" title="{reason}">{matched}</span>`. -/
def wrapMarker (style reason matched : List Char) : List Char :=
  "<span style=\"".data ++ style ++ "\" title=\"".data ++ reason
    ++ "\">".data ++ matched ++ "</span>".data

/-- `re.sub` from offset `i`: copy characters until a match, emit the
wrapped match, resume after it (after an empty match, copy one character
and advance).  Mirrors the scan order of `scanFrom`. -/
def substFrom (p : Pattern) (style reason text : List Char) : Nat → Nat → List Char
  | _, 0 => []
  | i, fuel + 1 =>
    if text.length < i then []
    else
      match matchAt p text i with
      | some e =>
        wrapMarker style reason ((text.drop i).take (e - i)) ++
          (if i < e then substFrom p style reason text e fuel
           else
             match text.drop i with
             | [] => []
             | c :: _ => c :: substFrom p style reason text (i + 1) fuel)
      | none =>
        match text.drop i with
        | [] => []
        | c :: _ => c :: substFrom p style reason text (i + 1) fuel

/-- `re.sub(pattern, wrapper, text, flags=re.IGNORECASE)` (lines 76-81). -/
def reSub (p : Pattern) (style reason text : List Char) : List Char :=
  substFrom p style reason text 0 (text.length + 2)

/-- One keyword entry of the rule set (`category['keywords']` items). -/
structure Keyword where
  term : String
  match_type : String
  reason : String
  suggestion : String
deriving DecidableEq, Repr

/-- One category of the rule set. -/
structure Category where
  category_name : String
  risk_level : String
  keywords : List Keyword
deriving DecidableEq, Repr

/-- The `meta` block of the blacklist document. -/
structure BlacklistMeta where
  version : String
  last_updated : String
deriving DecidableEq, Repr

/-- The loaded blacklist document (`blacklist_data`). -/
structure Blacklist where
  meta : BlacklistMeta
  categories : List Category
deriving DecidableEq, Repr

/-- The pattern `check_text` builds for a keyword (lines 44-48):
`\b`-fenced literal iff `match_type == 'exact'`, bare literal otherwise. -/
def mkPattern (kw : Keyword) : Pattern :=
  ⟨kw.term.data, kw.match_type == "exact"⟩

/-- One violation record (the dict appended at lines 55-62; field order
follows the dict keys 风险等级, 敏感词, 分类, 违规原因, 修改建议, 出现次数). -/
structure Violation where
  risk_level : String
  term : String
  category : String
  reason : String
  suggestion : String
  count : Nat
deriving DecidableEq, Repr

/-- Inner loop of `check_text` (lines 36-81): for each keyword of a
category, count matches in the original `text`; when nonzero, record a
violation and re-substitute on the running highlighted text. -/
def runKeywords (text : List Char) (cname risk : String) :
    List Keyword → List Char → List Violation × List Char
  | [], hl => ([], hl)
  | kw :: rest, hl =>
    let n := countMatches (mkPattern kw) text
    if n = 0 then runKeywords text cname risk rest hl
    else
      let hl2 := reSub (mkPattern kw) (styleFor risk).data kw.reason.data hl
      let res := runKeywords text cname risk rest hl2
      (⟨risk, kw.term, cname, kw.reason, kw.suggestion, n⟩ :: res.1, res.2)

/-- Outer loop of `check_text` (lines 32-81): categories in declaration
order, threading the violation list and the highlighted text. -/
def runCategories (text : List Char) : List Category → List Char → List Violation × List Char
  | [], hl => ([], hl)
  | c :: rest, hl =>
    let r1 := runKeywords text c.category_name c.risk_level c.keywords hl
    let r2 := runCategories text rest r1.2
    (r1.1 ++ r2.1, r2.2)

/-- `check_text(text, blacklist_data)` (lines 24-83): empty text returns
`([], text)`; otherwise scan every category. -/
def check_text (text : List Char) (bl : Blacklist) : List Violation × List Char :=
  if text.isEmpty then ([], text)
  else runCategories text bl.categories text

/-- `critical_count` (line 131): number of violations whose risk level
is `CRITICAL`. -/
def critical_count (vs : List Violation) : Nat :=
  (vs.filter (fun v => v.risk_level == "CRITICAL")).length

/-- The elevated warning is shown iff `critical_count > 0` (line 132). -/
def showCriticalWarning (vs : List Violation) : Bool :=
  decide (0 < critical_count vs)

/-- Report rows in the dataframe column order of line 127:
(风险等级, 敏感词, 修改建议, 违规原因, 分类). -/
def reportRows (vs : List Violation) : List (String × String × String × String × String) :=
  vs.map (fun v => (v.risk_level, v.term, v.suggestion, v.reason, v.category))

example : countMatches ⟨"Real".data, true⟩ "Real Gold Ring, Really shiny".data = 1 := by decide

example : countMatches ⟨"heal".data, false⟩ "natural healing powers".data = 1 := by decide

example : countMatches ⟨"Real".data, true⟩ "Really shiny".data = 0 := by decide

/-!
## Pattern compilation model: `re.escape` and its reading as a pattern

`check_text` builds its pattern string as `r'\b' + re.escape(term) + r'\b'`
(exact) or `re.escape(term)` (broad), line 44-48.  We model `re.escape`
with CPython's special-character map, a parser from pattern strings to
token lists, and the reading of a token list as a `Pattern`.
-/

/-- The characters `re.escape` prefixes with a backslash (CPython's
special-character map: `()[]\x7b\x7d?*+-|^$\.&~# \t\n\r\v\f`). -/
def reSpecial : List Char :=
  ['(', ')', '[', ']', Char.ofNat 123, Char.ofNat 125, '?', '*', '+', '-',
   '|', '^', '$', '\\', '.', '&', '~', '#', ' ', '\t', '\n', '\r',
   Char.ofNat 11, Char.ofNat 12]

/-- `re.escape`: backslash-escape every special character. -/
def reEscape (s : List Char) : List Char :=
  s.flatMap (fun c => if c ∈ reSpecial then ['\\', c] else [c])

/-- The full pattern string built at lines 44-48. -/
def patternString (kw : Keyword) : List Char :=
  if kw.match_type == "exact" then
    '\\' :: 'b' :: (reEscape kw.term.data ++ ['\\', 'b'])
  else reEscape kw.term.data

/-- Tokens of the pattern fragment the program can build: a word
boundary or a literal character. -/
inductive Tok where
  | bnd : Tok
  | lit : Char → Tok
deriving DecidableEq, Repr

/-- Parse a pattern string into tokens.  `\b` is a boundary, a
backslash-escaped character is that literal, an unescaped special
character is rejected (it would not denote a literal), anything else is
itself a literal. -/
def parseTokens : List Char → Option (List Tok)
  | [] => some []
  | c :: rest =>
    if c = '\\' then
      match rest with
      | [] => none
      | d :: rest2 =>
        if d = 'b' then (fun ts => Tok.bnd :: ts) <$> parseTokens rest2
        else (fun ts => Tok.lit d :: ts) <$> parseTokens rest2
    else if c ∈ reSpecial then none
    else (fun ts => Tok.lit c :: ts) <$> parseTokens rest

/-- Read a token list that is literals only. -/
def allLits : List Tok → Option (List Char)
  | [] => some []
  | Tok.lit c :: ts => (fun cs => c :: cs) <$> allLits ts
  | Tok.bnd :: _ => none

/-- Read a token list that is literals followed by one final boundary. -/
def litsThenBnd : List Tok → Option (List Char)
  | [] => none
  | [Tok.bnd] => some []
  | Tok.lit c :: ts => (fun cs => c :: cs) <$> litsThenBnd ts
  | Tok.bnd :: _ :: _ => none

/-- Read a token list as a `Pattern`: `\b lits \b` is an exact literal,
bare literals are a broad literal. -/
def toksToPattern : List Tok → Option Pattern
  | Tok.bnd :: rest => (fun cs => Pattern.mk cs true) <$> litsThenBnd rest
  | ts => (fun cs => Pattern.mk cs false) <$> allLits ts

/-- Compile a pattern string: parse it and read the tokens. -/
def compilePattern (s : List Char) : Option Pattern :=
  (parseTokens s).bind toksToPattern

/-!
## Specification-side definitions
-/

/-- The violation records one category contributes, described per term
independently on the original input text: a record iff the term's
pattern has at least one match, carrying the match count. -/
def keywordViolations (text : List Char) (cname risk : String) (kws : List Keyword) :
    List Violation :=
  kws.filterMap (fun kw =>
    let n := countMatches (mkPattern kw) text
    if n = 0 then none
    else some ⟨risk, kw.term, cname, kw.reason, kw.suggestion, n⟩)

/-- Modelled from the spec: the MatchEngine contract (§4.2).  Empty text
yields no violations; otherwise, for each category in declaration order
and each term in category order, the term contributes one record iff its
pattern has at least one non-overlapping case-insensitive match in the
input text, with `occurrence_count` the number of such matches. -/
def checkViolationsSpec (text : List Char) (bl : Blacklist) : List Violation :=
  if text.isEmpty then []
  else bl.categories.flatMap
    (fun c => keywordViolations text c.category_name c.risk_level c.keywords)

/-- Modelled from the spec: the Annotator contract (§4.3) for one
pattern pass — all original characters outside the matched ranges are
preserved exactly and each matched range is wrapped in its marker.
Renders the text from offset `i` against the given span list. -/
def renderSpans (style reason text : List Char) : Nat → List (Nat × Nat) → List Char
  | i, [] => text.drop i
  | i, (s, e) :: rest =>
    (text.drop i).take (s - i) ++
      wrapMarker style reason ((text.drop s).take (e - s)) ++
      renderSpans style reason text e rest

/-- Modelled from the spec: single-pass annotation of a text by one
pattern — matched ranges (computed on `text` itself) wrapped, every
other character preserved. -/
def annotateSpec (p : Pattern) (style reason text : List Char) : List Char :=
  renderSpans style reason text 0 (findMatches p text)

example : compilePattern (patternString ⟨"Real", "exact", "r", "s"⟩)
    = some ⟨"Real".data, true⟩ := by decide

example : compilePattern (patternString ⟨"a+b", "broad", "r", "s"⟩)
    = some ⟨"a+b".data, false⟩ := by decide

example : annotateSpec ⟨"heal".data, false⟩ "S".data "r".data "go heal".data
    = reSub ⟨"heal".data, false⟩ "S".data "r".data "go heal".data := by decide

/-- The keyword's pattern has at least one match in the text. -/
def termMatched (text : List Char) (kw : Keyword) : Bool :=
  decide (0 < countMatches (mkPattern kw) text)

/-- `hasSegment pat l` : `pat` occurs contiguously inside `l`. -/
def hasSegment (pat : List Char) : List Char → Bool
  | [] => decide (pat = [])
  | c :: rest => pat.isPrefixOf (c :: rest) || hasSegment pat rest

/-- A rule set whose second term (`style`) collides with the marker
syntax inserted for the first term (`span`). -/
def blMarkerClash : Blacklist :=
  ⟨⟨"1.1", "2024-01-01"⟩,
   [⟨"marker clash", "CRITICAL",
     [⟨"span", "broad", "r1", "s1"⟩, ⟨"style", "broad", "r2", "s2"⟩]⟩]⟩

/-- A rule set with a single broad term. -/
def blHeal : Blacklist :=
  ⟨⟨"1.1", "2024-01-01"⟩,
   [⟨"healing", "HIGH", [⟨"heal", "broad", "implies medical", "remove"⟩]⟩]⟩

/-- A rule set with a single exact term that does not occur in the
witness text. -/
def blGold : Blacklist :=
  ⟨⟨"1.1", "2024-01-01"⟩,
   [⟨"claims", "CRITICAL", [⟨"gold", "exact", "implies material", "remove"⟩]⟩]⟩

/-!
## Lemmas about the scanner
-/

lemma ciStartsWith_length : ∀ {a b : List Char}, ciStartsWith a b = true → a.length ≤ b.length
  | [], _, _ => Nat.zero_le _
  | _ :: _, [], h => by simp [ciStartsWith] at h
  | a :: as, b :: bs, h => by
    simp only [ciStartsWith, Bool.and_eq_true] at h
    simpa using ciStartsWith_length h.2

lemma litMatchAt_le {term text : List Char} {i : Nat}
    (h : litMatchAt term text i = true) : i + term.length ≤ text.length := by
  simp only [litMatchAt, Bool.and_eq_true, decide_eq_true_eq] at h
  have := ciStartsWith_length h.2
  simp only [List.length_drop] at this
  omega

lemma matchAt_some {p : Pattern} {text : List Char} {i e : Nat}
    (h : matchAt p text i = some e) :
    e = i + p.term.length ∧ i + p.term.length ≤ text.length := by
  unfold matchAt at h
  split at h
  · rename_i hc
    simp only [Bool.and_eq_true] at hc
    exact ⟨(Option.some.injEq _ _).mp h |>.symm, litMatchAt_le hc.1⟩
  · exact absurd h (by simp)

lemma scanFrom_of_gt {p : Pattern} {text : List Char} {i : Nat}
    (h : text.length < i) : ∀ fuel, scanFrom p text i fuel = []
  | 0 => rfl
  | fuel + 1 => by simp [scanFrom, h]

lemma scanFrom_start_le {p : Pattern} {text : List Char} :
    ∀ {fuel i s e}, (s, e) ∈ scanFrom p text i fuel → i ≤ s
  | 0, i, s, e, h => by simp [scanFrom] at h
  | fuel + 1, i, s, e, h => by
    simp only [scanFrom] at h
    split at h
    · simp at h
    · split at h
      · rename_i e' hm
        rcases List.mem_cons.mp h with h | h
        · cases h; exact le_rfl
        · have := scanFrom_start_le h
          omega
      · have := scanFrom_start_le h
        omega

lemma scanFrom_eq_nil {p : Pattern} {text : List Char} :
    ∀ (fuel i : Nat), (∀ j, i ≤ j → j ≤ text.length → matchAt p text j = none) →
      scanFrom p text i fuel = []
  | 0, _, _ => rfl
  | fuel + 1, i, H => by
    simp only [scanFrom]
    split
    · rfl
    · rename_i hle
      rw [H i le_rfl (by omega)]
      exact scanFrom_eq_nil fuel (i + 1) (fun j h1 h2 => H j (by omega) h2)

lemma scanFrom_singleton {p : Pattern} {text : List Char} :
    ∀ (fuel i : Nat) {q e0 : Nat}, text.length + 2 ≤ i + fuel → i ≤ q →
      matchAt p text q = some e0 →
      (∀ j e, i ≤ j → matchAt p text j = some e → j = q) →
      scanFrom p text i fuel = [(q, e0)]
  | 0, i, q, e0, hfuel, hiq, hm, _ => by
    have := (matchAt_some hm).2
    omega
  | fuel + 1, i, q, e0, hfuel, hiq, hm, huniq => by
    have hqle : q ≤ text.length := by have := (matchAt_some hm).2; omega
    simp only [scanFrom]
    split
    · omega
    · rename_i hle
      cases hmi : matchAt p text i with
      | some e =>
        have hieq : i = q := huniq i e le_rfl hmi
        subst hieq
        rw [hmi] at hm
        cases hm
        have htail : scanFrom p text (max e0 (i + 1)) fuel = [] := by
          apply scanFrom_eq_nil
          intro j h1 h2
          cases hmj : matchAt p text j with
          | none => rfl
          | some e' =>
            have : j = i := huniq j e' (by omega) hmj
            omega
        simp only [htail]
      | none =>
        have hne : i ≠ q := fun h => by rw [h, hm] at hmi; cases hmi
        exact scanFrom_singleton fuel (i + 1) (by omega) (by omega) hm
          (fun j e h1 h2 => huniq j e (by omega) h2)

lemma renderSpans_shift (style reason text : List Char) (i : Nat) (hi : i < text.length)
    (sp : List (Nat × Nat)) (hsp : ∀ s e, (s, e) ∈ sp → i + 1 ≤ s) :
    renderSpans style reason text i sp
      = text[i] :: renderSpans style reason text (i + 1) sp := by
  cases sp with
  | nil =>
    simp only [renderSpans]
    rw [List.drop_eq_getElem_cons hi]
  | cons se rest =>
    obtain ⟨s, e⟩ := se
    have hs : i + 1 ≤ s := hsp s e (List.mem_cons_self _ _)
    simp only [renderSpans]
    rw [List.drop_eq_getElem_cons hi]
    have hsi : s - i = (s - (i + 1)) + 1 := by omega
    rw [hsi, List.take_succ_cons]
    simp

lemma substFrom_eq_renderSpans (p : Pattern) (style reason text : List Char) :
    ∀ (fuel i : Nat), text.length < i + fuel →
      substFrom p style reason text i fuel
        = renderSpans style reason text i (scanFrom p text i fuel)
  | 0, i, h => by
    simp only [substFrom, scanFrom, renderSpans]
    rw [List.drop_eq_nil_of_le (by omega)]
  | fuel + 1, i, h => by
    by_cases hgt : text.length < i
    · simp only [substFrom, scanFrom, if_pos hgt, renderSpans]
      rw [List.drop_eq_nil_of_le (by omega)]
    · push_neg at hgt
      cases hm : matchAt p text i with
      | none =>
        simp only [substFrom, scanFrom, if_neg (not_lt.mpr hgt), hm]
        by_cases hi : i < text.length
        · rw [List.drop_eq_getElem_cons hi]
          rw [substFrom_eq_renderSpans p style reason text fuel (i + 1) (by omega)]
          rw [renderSpans_shift style reason text i hi _
            (fun s e hmem => scanFrom_start_le hmem)]
        · rw [List.drop_eq_nil_of_le (by omega)]
          rw [scanFrom_of_gt (by omega : text.length < i + 1)]
          simp only [renderSpans]
          rw [List.drop_eq_nil_of_le (by omega)]
      | some e =>
        obtain ⟨he, hele⟩ := matchAt_some hm
        simp only [substFrom, scanFrom, if_neg (not_lt.mpr hgt), hm]
        by_cases hlt : i < e
        · rw [Nat.max_eq_left (by omega), if_pos hlt]
          rw [substFrom_eq_renderSpans p style reason text fuel e (by omega)]
          simp [renderSpans, Nat.sub_self]
        · have hei : e = i := by omega
          rw [hei, Nat.max_eq_right (by omega), if_neg (lt_irrefl i)]
          by_cases hi : i < text.length
          · rw [List.drop_eq_getElem_cons hi]
            rw [substFrom_eq_renderSpans p style reason text fuel (i + 1) (by omega)]
            simp only [renderSpans, Nat.sub_self, List.take_zero, List.nil_append]
            rw [renderSpans_shift style reason text i hi _
              (fun s e hmem => scanFrom_start_le hmem)]
          · rw [List.drop_eq_nil_of_le (by omega)]
            rw [scanFrom_of_gt (by omega : text.length < i + 1)]
            simp only [renderSpans, Nat.sub_self, List.take_zero, List.nil_append]
            rw [List.drop_eq_nil_of_le (by omega)]

/-- `re.sub` with one pattern equals the specification-side single-pass
annotation: matched ranges wrapped, everything else copied verbatim. -/
lemma reSub_eq_annotateSpec (p : Pattern) (style reason text : List Char) :
    reSub p style reason text = annotateSpec p style reason text :=
  substFrom_eq_renderSpans p style reason text (text.length + 2) 0 (by omega)

lemma scanFrom_ne_nil {p : Pattern} {text : List Char} :
    ∀ (fuel i : Nat) {j e : Nat}, text.length + 2 ≤ i + fuel → i ≤ j →
      matchAt p text j = some e →
      scanFrom p text i fuel ≠ []
  | 0, i, j, e, hfuel, hij, hm => by
    have := (matchAt_some hm).2
    omega
  | fuel + 1, i, j, e, hfuel, hij, hm => by
    have hjle : j ≤ text.length := by have := (matchAt_some hm).2; omega
    simp only [scanFrom]
    split
    · omega
    · cases hmi : matchAt p text i with
      | some e' => simp
      | none =>
        have hne : i ≠ j := fun h => by rw [h, hm] at hmi; cases hmi
        exact scanFrom_ne_nil fuel (i + 1) (by omega) (by omega) hm

/-!
## Lemmas about the scanning loops of `check_text`
-/

lemma runKeywords_fst (text : List Char) (cname risk : String) :
    ∀ (kws : List Keyword) (hl : List Char),
      (runKeywords text cname risk kws hl).1 = keywordViolations text cname risk kws
  | [], _ => rfl
  | kw :: rest, hl => by
    by_cases hn : countMatches (mkPattern kw) text = 0
    · simp only [runKeywords, keywordViolations, List.filterMap_cons, if_pos hn]
      exact runKeywords_fst text cname risk rest hl
    · simp only [runKeywords, keywordViolations, List.filterMap_cons, if_neg hn]
      rw [runKeywords_fst text cname risk rest]
      simp [keywordViolations]

lemma runKeywords_snd_of_fst_nil (text : List Char) (cname risk : String) :
    ∀ (kws : List Keyword) (hl : List Char),
      (runKeywords text cname risk kws hl).1 = [] →
      (runKeywords text cname risk kws hl).2 = hl
  | [], _, _ => rfl
  | kw :: rest, hl, h => by
    by_cases hn : countMatches (mkPattern kw) text = 0
    · simp only [runKeywords, if_pos hn] at h ⊢
      exact runKeywords_snd_of_fst_nil text cname risk rest hl h
    · simp only [runKeywords, if_neg hn] at h
      exact absurd h (List.cons_ne_nil _ _)

lemma runCategories_fst (text : List Char) :
    ∀ (cats : List Category) (hl : List Char),
      (runCategories text cats hl).1
        = cats.flatMap
            (fun c => keywordViolations text c.category_name c.risk_level c.keywords)
  | [], _ => rfl
  | c :: rest, hl => by
    simp only [runCategories, List.flatMap_cons]
    rw [runKeywords_fst, runCategories_fst text rest]

lemma runCategories_snd_of_fst_nil (text : List Char) :
    ∀ (cats : List Category) (hl : List Char),
      (runCategories text cats hl).1 = [] → (runCategories text cats hl).2 = hl
  | [], _, _ => rfl
  | c :: rest, hl, h => by
    simp only [runCategories, List.append_eq_nil] at h
    obtain ⟨h1, h2⟩ := h
    have e1 := runKeywords_snd_of_fst_nil text c.category_name c.risk_level c.keywords hl h1
    simp only [runCategories, e1] at h2 ⊢
    exact runCategories_snd_of_fst_nil text rest hl h2

/-- The violation list returned by `check_text` equals the per-term
specification-side description. -/
lemma check_text_fst (text : List Char) (bl : Blacklist) :
    (check_text text bl).1 = checkViolationsSpec text bl := by
  unfold check_text checkViolationsSpec
  by_cases h : text.isEmpty
  · simp [h]
  · simp only [if_neg h]
    exact runCategories_fst text bl.categories text

lemma keywordViolations_count_pos (text : List Char) (cname risk : String) :
    ∀ (kws : List Keyword) {v : Violation},
      v ∈ keywordViolations text cname risk kws → 0 < v.count
  | [], v, h => by simp [keywordViolations] at h
  | kw :: rest, v, h => by
    by_cases hn : countMatches (mkPattern kw) text = 0
    · simp only [keywordViolations, List.filterMap_cons, if_pos hn] at h
      exact keywordViolations_count_pos text cname risk rest h
    · simp only [keywordViolations, List.filterMap_cons, if_neg hn] at h
      rcases List.mem_cons.mp h with h | h
      · subst h
        exact Nat.pos_of_ne_zero hn
      · exact keywordViolations_count_pos text cname risk rest h

/-!
## Lemmas about pattern compilation
-/

lemma reEscape_nil : reEscape [] = [] := by simp [reEscape]

lemma reEscape_cons (c : Char) (s : List Char) :
    reEscape (c :: s) = (if c ∈ reSpecial then ['\\', c] else [c]) ++ reEscape s := by
  simp only [reEscape, List.flatMap_cons]

lemma reSpecial_ne_b : ∀ c ∈ reSpecial, c ≠ 'b' := by decide

lemma backslash_mem_reSpecial : '\\' ∈ reSpecial := by decide

lemma parseTokens_cons_lit (c : Char) (l : List Char) (h1 : ¬c = '\\') (h2 : c ∉ reSpecial) :
    parseTokens (c :: l) = (fun ts => Tok.lit c :: ts) <$> parseTokens l := by
  cases l with
  | nil => simp [parseTokens, h1, h2]
  | cons d l2 => simp [parseTokens, h1, h2]

lemma parseTokens_reEscape (rest : List Char) :
    ∀ (s : List Char), parseTokens (reEscape s ++ rest)
      = (fun ts => s.map Tok.lit ++ ts) <$> parseTokens rest
  | [] => by
    rw [reEscape_nil, List.nil_append, List.map_nil]
    cases parseTokens rest <;> simp
  | c :: s => by
    rw [reEscape_cons]
    by_cases hc : c ∈ reSpecial
    · have hcb : ¬c = 'b' := reSpecial_ne_b c hc
      rw [if_pos hc]
      simp only [List.cons_append, List.nil_append]
      simp only [parseTokens, if_pos rfl, if_neg hcb]
      rw [parseTokens_reEscape rest s]
      cases parseTokens rest <;> simp
    · have hcb : ¬c = '\\' := fun h => hc (h ▸ backslash_mem_reSpecial)
      rw [if_neg hc]
      simp only [List.cons_append, List.nil_append]
      rw [parseTokens_cons_lit c _ hcb hc]
      rw [parseTokens_reEscape rest s]
      cases parseTokens rest <;> simp

lemma allLits_map_lit : ∀ (s : List Char), allLits (s.map Tok.lit) = some s
  | [] => rfl
  | c :: s => by
    rw [List.map_cons]
    simp [allLits, allLits_map_lit s]

lemma litsThenBnd_map_lit : ∀ (s : List Char), litsThenBnd (s.map Tok.lit ++ [Tok.bnd]) = some s
  | [] => rfl
  | c :: s => by
    rw [List.map_cons, List.cons_append]
    simp [litsThenBnd, litsThenBnd_map_lit s]

lemma toksToPattern_lits : ∀ (s : List Char), toksToPattern (s.map Tok.lit) = some ⟨s, false⟩
  | [] => rfl
  | c :: s => by
    rw [List.map_cons]
    simp [toksToPattern, allLits, allLits_map_lit s]

/-!
## Helper lemmas for the report and summary claims
-/

lemma matchAt_lit {p : Pattern} {text : List Char} {j e : Nat}
    (h : matchAt p text j = some e) : litMatchAt p.term text j = true := by
  unfold matchAt at h
  split at h
  · rename_i hc
    exact (Bool.and_eq_true _ _ |>.mp hc).1
  · cases h

lemma reportRows_keywordViolations (text : List Char) (cname risk : String) :
    ∀ (kws : List Keyword),
      reportRows (keywordViolations text cname risk kws)
        = (kws.filter (termMatched text)).map
            (fun kw => (risk, kw.term, kw.suggestion, kw.reason, cname))
  | [] => rfl
  | kw :: rest => by
    by_cases hn : countMatches (mkPattern kw) text = 0
    · have hf : termMatched text kw = false := by
        simp [termMatched, hn]
      simp only [keywordViolations, List.filterMap_cons, if_pos hn, List.filter_cons, hf,
        Bool.false_eq_true, if_false]
      exact reportRows_keywordViolations text cname risk rest
    · have hf : termMatched text kw = true := by
        simp [termMatched, Nat.pos_of_ne_zero hn]
      simp only [keywordViolations, List.filterMap_cons, if_neg hn, List.filter_cons, hf,
        if_true, List.map_cons]
      have := reportRows_keywordViolations text cname risk rest
      simp only [keywordViolations] at this
      simp [reportRows] at this ⊢
      exact this

lemma keywordViolations_filter_crit_length (text : List Char) (cname risk : String) :
    ∀ (kws : List Keyword),
      ((keywordViolations text cname risk kws).filter
          (fun v => v.risk_level == "CRITICAL")).length
        = if risk == "CRITICAL" then (kws.filter (termMatched text)).length else 0
  | [] => by
    cases hr : risk == "CRITICAL" <;> simp [keywordViolations, hr]
  | kw :: rest => by
    have hrec := keywordViolations_filter_crit_length text cname risk rest
    by_cases hn : countMatches (mkPattern kw) text = 0
    · have hf : termMatched text kw = false := by simp [termMatched, hn]
      simp only [keywordViolations, List.filterMap_cons, if_pos hn, List.filter_cons, hf,
        Bool.false_eq_true, if_false]
      simpa [keywordViolations] using hrec
    · have hf : termMatched text kw = true := by simp [termMatched, Nat.pos_of_ne_zero hn]
      cases hr : risk == "CRITICAL" with
      | true =>
        simp only [keywordViolations, List.filterMap_cons, if_neg hn, List.filter_cons, hf,
          if_true, hr, List.length_cons]
        simp only [keywordViolations, hr] at hrec
        simp [hrec]
      | false =>
        simp only [keywordViolations, List.filterMap_cons, if_neg hn, List.filter_cons, hf,
          if_true, hr, Bool.false_eq_true, if_false]
        simp only [keywordViolations, hr, Bool.false_eq_true, if_false] at hrec
        simp [hrec]

lemma critical_count_flatMap (text : List Char) :
    ∀ (cats : List Category),
      critical_count (cats.flatMap
          (fun c => keywordViolations text c.category_name c.risk_level c.keywords))
        = ((cats.filter (fun c => c.risk_level == "CRITICAL")).map
            (fun c => (c.keywords.filter (termMatched text)).length)).sum
  | [] => rfl
  | c :: rest => by
    have hrec := critical_count_flatMap text rest
    unfold critical_count at hrec ⊢
    simp only [List.flatMap_cons, List.filter_append, List.length_append, List.filter_cons]
    rw [hrec, keywordViolations_filter_crit_length]
    cases hr : c.risk_level == "CRITICAL" <;> simp [hr]

/-!
## Claim theorems
-/

/-- C6: for every rule set, scanning the empty text returns an empty
violation list and the unchanged (empty) annotated text; the empty
input is the defined empty case, not an error. -/
theorem check_text_empty_input (bl : Blacklist) : check_text [] bl = ([], []) := rfl

/-- C10: match finding and occurrence counts are computed against the
original input text only: the violation list produced by the scanning
loop is entirely independent of the running annotated text (the
accumulator that receives the markers), so records never depend on
markers inserted while annotating earlier terms. -/
theorem violations_ignore_highlighted_state (text : List Char) (cats : List Category)
    (hl1 hl2 : List Char) :
    (runCategories text cats hl1).1 = (runCategories text cats hl2).1 := by
  rw [runCategories_fst, runCategories_fst]

/-- C9: if a scan produces zero violations, the annotated text returned
by `check_text` is identical to the input text. -/
theorem no_violations_output_unchanged (text : List Char) (bl : Blacklist)
    (h : (check_text text bl).1 = []) : (check_text text bl).2 = text := by
  by_cases he : text.isEmpty
  · simp [check_text, he]
  · simp only [check_text, if_neg he] at h ⊢
    exact runCategories_snd_of_fst_nil text bl.categories text h

/-- Witness for C9 at a concrete input: the rule set's only term `gold`
(exact) does not occur in `hi`, so the text comes back unchanged. -/
theorem no_violations_output_unchanged_witness :
    (check_text "hi".data blGold).1 = [] ∧ (check_text "hi".data blGold).2 = "hi".data :=
  ⟨by decide, no_violations_output_unchanged "hi".data blGold (by decide)⟩

/-- C2: the violation list of `check_text` equals the per-term
specification: for each category and each term in declaration order, a
record appears iff the term's compiled pattern has at least one
non-overlapping case-insensitive match in the original input text, and
its `occurrence_count` is exactly that match count; moreover every
emitted record has a positive count (a term with zero matches
contributes no record). -/
theorem check_text_counts_per_term (text : List Char) (bl : Blacklist) :
    (check_text text bl).1 = checkViolationsSpec text bl
      ∧ ((check_text text bl).1).all (fun v => decide (0 < v.count)) = true := by
  refine ⟨check_text_fst text bl, ?_⟩
  rw [check_text_fst, List.all_eq_true]
  intro v hv
  unfold checkViolationsSpec at hv
  split at hv
  · simp at hv
  · rw [List.mem_flatMap] at hv
    obtain ⟨c, _, hv⟩ := hv
    exact decide_eq_true
      (keywordViolations_count_pos text c.category_name c.risk_level c.keywords hv)

/-- C4: a term in SUBSTRING ("broad") mode matches wherever its literal
text occurs case-insensitively, with no boundary constraint: any
occurrence — also inside a longer word — forces at least one match. -/
theorem broad_mode_substring_match (term text : List Char) (i : Nat)
    (h : litMatchAt term text i = true) :
    0 < countMatches ⟨term, false⟩ text := by
  have hm : matchAt ⟨term, false⟩ text i = some (i + term.length) := by
    simp [matchAt, h]
  have hne := scanFrom_ne_nil (text.length + 2) 0 (by omega) (Nat.zero_le i) hm
  exact List.length_pos.mpr hne

/-- Witness for C4: `heal` occurs inside `healing` (offset 8) and yields
a match. -/
theorem broad_mode_substring_match_witness :
    litMatchAt "heal".data "natural healing powers".data 8 = true
      ∧ 0 < countMatches ⟨"heal".data, false⟩ "natural healing powers".data :=
  ⟨by decide,
   broad_mode_substring_match "heal".data "natural healing powers".data 8 (by decide)⟩

/-- C3: EXACT mode enforces `\b` word boundaries.  (1) If every
case-insensitive occurrence of the term in the text lacks a word
boundary on at least one side (the term appears only inside longer
words), the exact pattern has zero matches.  (2) If exactly one offset
carries an occurrence with boundaries on both sides (the term appears
exactly once as a standalone word), the exact pattern has exactly one
match. -/
theorem exact_mode_word_boundary (term text : List Char) (q : Nat) :
    ((∀ i, i ≤ text.length → litMatchAt term text i = true →
        ¬(boundaryAt text i = true ∧ boundaryAt text (i + term.length) = true)) →
      countMatches ⟨term, true⟩ text = 0)
    ∧ (q ≤ text.length →
       (∀ i, i ≤ text.length →
          ((litMatchAt term text i
              && (boundaryAt text i && boundaryAt text (i + term.length))) = true
            ↔ i = q)) →
      countMatches ⟨term, true⟩ text = 1) := by
  constructor
  · intro H
    have hnone : ∀ j, 0 ≤ j → j ≤ text.length → matchAt ⟨term, true⟩ text j = none := by
      intro j _ hj
      unfold matchAt
      rw [if_neg]
      intro hc
      simp only [Bool.not_true, Bool.false_or, Bool.and_eq_true] at hc
      exact H j hj hc.1 hc.2
    unfold countMatches findMatches
    rw [scanFrom_eq_nil (text.length + 2) 0 (fun j h1 h2 => hnone j h1 h2)]
    rfl
  · intro hq H
    have hmq : matchAt ⟨term, true⟩ text q = some (q + term.length) := by
      have hc := (H q hq).mpr rfl
      unfold matchAt
      rw [if_pos]
      simpa only [Bool.not_true, Bool.false_or] using hc
    have huniq : ∀ j e, 0 ≤ j → matchAt ⟨term, true⟩ text j = some e → j = q := by
      intro j e _ hm
      have hlit := matchAt_lit hm
      have hjle : j ≤ text.length := by
        have := litMatchAt_le hlit
        omega
      apply (H j hjle).mp
      unfold matchAt at hm
      split at hm
      · rename_i hc
        simpa only [Bool.not_true, Bool.false_or] using hc
      · cases hm
    unfold countMatches findMatches
    rw [scanFrom_singleton (text.length + 2) 0 (by omega) (Nat.zero_le q) hmq huniq]
    rfl

/-- Witness for C3: `Real` inside `Really` never matches in exact mode;
`Real` standing alone in `Real Gold Ring` matches exactly once. -/
theorem exact_mode_word_boundary_witness :
    countMatches ⟨"Real".data, true⟩ "Really shiny".data = 0
      ∧ countMatches ⟨"Real".data, true⟩ "Real Gold Ring".data = 1 :=
  ⟨(exact_mode_word_boundary "Real".data "Really shiny".data 0).1 (by decide),
   (exact_mode_word_boundary "Real".data "Real Gold Ring".data 0).2 (by decide) (by decide)⟩

/-- C5: the report rows stand in rule-set declaration order — category
order, then term order within each category — not in text-position
order; every keyword occurrence slot with at least one match produces
its own row (records for distinct (term, category) slots are never
merged, even for identical term texts), and the tabular report keeps
exactly the violation order (line 127 only reorders columns). -/
theorem report_rows_declaration_order (text : List Char) (bl : Blacklist) :
    reportRows ((check_text text bl).1)
      = if text.isEmpty then []
        else bl.categories.flatMap (fun c =>
          (c.keywords.filter (termMatched text)).map
            (fun kw => (c.risk_level, kw.term, kw.suggestion, kw.reason, c.category_name))) := by
  rw [check_text_fst]
  unfold checkViolationsSpec
  by_cases he : text.isEmpty
  · simp [he, reportRows]
  · simp only [if_neg he]
    unfold reportRows
    rw [List.map_flatMap]
    congr 1
    funext c
    exact reportRows_keywordViolations text c.category_name c.risk_level c.keywords

/-- C8: `criticalCount` equals the number of violation records with
CRITICAL risk — equivalently, the number of matched keyword slots in
CRITICAL categories — and the elevated warning state is triggered
exactly when it is positive. -/
theorem critical_count_summary (text : List Char) (bl : Blacklist) :
    critical_count ((check_text text bl).1)
        = (if text.isEmpty then 0
           else ((bl.categories.filter (fun c => c.risk_level == "CRITICAL")).map
              (fun c => (c.keywords.filter (termMatched text)).length)).sum)
      ∧ (showCriticalWarning ((check_text text bl).1) = true
          ↔ 0 < critical_count ((check_text text bl).1)) := by
  constructor
  · rw [check_text_fst]
    unfold checkViolationsSpec
    by_cases he : text.isEmpty
    · simp [he, critical_count]
    · simp only [if_neg he]
      exact critical_count_flatMap text bl.categories
  · simp [showCriticalWarning]

/-- C7: pattern compilation is total on every keyword — because
`re.escape` escapes every special character, the pattern string the
program builds always parses back as exactly the intended literal
pattern (with boundaries iff exact mode), so `CompileError` is
unreachable and the scan as a whole cannot fail. -/
theorem compile_escaped_pattern (kw : Keyword) :
    compilePattern (patternString kw) = some (mkPattern kw) := by
  unfold compilePattern patternString mkPattern
  cases hm : kw.match_type == "exact" with
  | true =>
    simp only [hm, if_true]
    have h1 : parseTokens ('\\' :: 'b' :: (reEscape kw.term.data ++ ['\\', 'b']))
        = (fun ts => Tok.bnd :: ts) <$> parseTokens (reEscape kw.term.data ++ ['\\', 'b']) := by
      simp [parseTokens]
    rw [h1, parseTokens_reEscape]
    have h2 : parseTokens ['\\', 'b'] = some [Tok.bnd] := rfl
    rw [h2]
    show toksToPattern (Tok.bnd :: (List.map Tok.lit kw.term.data ++ [Tok.bnd]))
      = some ⟨kw.term.data, true⟩
    simp [toksToPattern, litsThenBnd_map_lit]
  | false =>
    simp only [hm, Bool.false_eq_true, if_false]
    rw [← List.append_nil (reEscape kw.term.data), parseTokens_reEscape]
    show toksToPattern (List.map Tok.lit kw.term.data ++ [])
      = some ⟨kw.term.data, false⟩
    rw [List.append_nil]
    exact toksToPattern_lits kw.term.data

set_option maxRecDepth 40000 in
/-- C1, counterexample: the claim fails as stated.  With rule set
`blMarkerClash` (broad terms `span` then `style`) and input
`span style`, the second term's substitution runs on the already
annotated text and rewrites the `style` that is part of the first
marker's opening tag: the output contains the corrupted fragment
`<span <span`, and it differs from the output the claim demands (each
original match wrapped, all other characters preserved, markers left
intact). -/
theorem annotator_marker_clash_cex :
    hasSegment ("<span <span".data) ((check_text "span style".data blMarkerClash).2) = true
      ∧ (check_text "span style".data blMarkerClash).2
          ≠ wrapMarker styleCritical.data "r1".data "span".data
              ++ ' ' :: wrapMarker styleCritical.data "r2".data "style".data := by
  constructor
  · decide
  · decide

/-- C1, amended: each single substitution pass — in particular the scan
of a rule set with exactly one term — preserves every original
character outside the matched ranges exactly and wraps exactly the
matches of the pattern in the current text in a marker; but because
each term's pass reruns on the already annotated text, a later term's
pattern may also match and rewrite a previously inserted marker's
structural content (see `annotator_marker_clash_cex`). -/
theorem annotator_single_keyword_spec (text : List Char) (bl : Blacklist)
    (cname risk : String) (kw : Keyword)
    (hbl : bl.categories = [⟨cname, risk, [kw]⟩]) (ht : text ≠ []) :
    (check_text text bl).2
      = annotateSpec (mkPattern kw) (styleFor risk).data kw.reason.data text := by
  have hne : text.isEmpty = false := by
    cases text
    · exact absurd rfl ht
    · rfl
  unfold check_text
  rw [if_neg (by simp [hne]), hbl]
  by_cases hn : countMatches (mkPattern kw) text = 0
  · have hfm : findMatches (mkPattern kw) text = [] := by
      unfold countMatches at hn
      exact List.length_eq_zero.mp hn
    simp only [runCategories, runKeywords, if_pos hn, annotateSpec, hfm, renderSpans,
      List.drop_zero]
  · simp only [runCategories, runKeywords, if_neg hn]
    exact reSub_eq_annotateSpec _ _ _ _

/-- Witness for C1's amended theorem: `heal` inside
`natural healing powers` under the single-term rule set `blHeal`. -/
theorem annotator_single_keyword_spec_witness :
    blHeal.categories = [⟨"healing", "HIGH", [⟨"heal", "broad", "implies medical", "remove"⟩]⟩]
      ∧ "natural healing powers".data ≠ []
      ∧ (check_text "natural healing powers".data blHeal).2
          = annotateSpec (mkPattern ⟨"heal", "broad", "implies medical", "remove"⟩)
              (styleFor "HIGH").data "implies medical".data "natural healing powers".data :=
  ⟨rfl, by decide,
   annotator_single_keyword_spec "natural healing powers".data blHeal "healing" "HIGH"
     ⟨"heal", "broad", "implies medical", "remove"⟩ rfl (by decide)⟩
